import Mathlib

/-!
Shallow embedding of the zippeek ZIP central-directory parser
(src/src/zip.c, buffer-based implementation: `find_eocd`, `read_eocd`,
`fast_cdfh_va_params_sum`, `read_cdfh`, `zip_read_directory`), together
with theorems settling the frozen claims.

A byte buffer is a `List Nat`; every byte access reduces mod 256,
matching the `uint8_t` view of the mapped file.  The C function
`zip_read_directory` signals failure by returning `NULL`; here every
distinct `return NULL` site is a distinct `ZipErr` constructor so the
theorems can speak about which check fired.  Allocation failures
(`malloc` returning `NULL`) and the `fstat`/`mmap` system-call failures
are outside the embedding; offsets are `Nat` (they are non-negative on
every reachable path: `central_dir_offset` is `uint32_t` and each loop
step adds a non-negative amount, so the C `off_t < 0` checks never fire).
-/

namespace Zippeek

/-- EOCD record signature `0x06054b50` (zip.h). -/
def EOCD_SIGNATURE : Nat := 0x06054b50

/-- CDFH record signature `0x02014b50` (zip.h). -/
def CDFH_SIGNATURE : Nat := 0x02014b50

/-- `ZIP_ERR_BAD_BUFFER` numeric error code (value 6: slot 6 of the v1
error table in the headers shipped with the repository, renamed from
`ZIP_ERR_BAD_FILE_DESC` to `ZIP_ERR_BAD_BUFFER` in the buffer-based
message table). `fast_cdfh_va_params_sum` returns it through its
`uint32_t` result channel. -/
def ZIP_ERR_BAD_BUFFER : Nat := 6

/-- One byte of the mapped file: C reads `uint8_t`, so reduce mod 256. -/
def read8 (buf : List Nat) (i : Nat) : Nat := buf.getD i 0 % 256

/-- Little-endian 16-bit load `buf[i] | (buf[i+1] << 8)`; the byte lanes
are disjoint, so the C bitwise-or equals this sum. -/
def readLE16 (buf : List Nat) (i : Nat) : Nat :=
  read8 buf i + read8 buf (i + 1) * 256

/-- Little-endian 32-bit load
`buf[i] | (buf[i+1] << 8) | (buf[i+2] << 16) | (buf[i+3] << 24)`. -/
def readLE32 (buf : List Nat) (i : Nat) : Nat :=
  read8 buf i + read8 buf (i + 1) * 256 + read8 buf (i + 2) * 65536 +
    read8 buf (i + 3) * 16777216

/-- The distinct failure exits of the parser.  Each constructor stands
for one `return`-with-error site of the C code: the names follow the
`ZIP_ERR_*` codes where one is attached to the site, and the two pass-1
central-directory checks of `zip_read_directory` (which only print a
diagnostic and return `NULL`) get their own constructors. -/
inductive ZipErr where
  | bufferTooSmall
  | eocdNotFound
  | bufferTruncated
  | eocdSignatureBad
  | cdEntrySignatureBad
  | emptyFile
  | emptyArchive
  | cdfhOutOfBounds
  | chainOverrun
deriving DecidableEq

/-- Result of a parsing function: either a value or one of the error
exits (the C functions return an error code, or `NULL` plus a
diagnostic, respectively). -/
inductive ZipResult (α : Type) where
  | ok (val : α)
  | err (e : ZipErr)
deriving DecidableEq

/-- `struct EOCD` (buffer-based zip.c): the fixed 22-byte trailer. -/
structure EOCD where
  signature : Nat
  this_disk : Nat
  central_dir_disk : Nat
  total_entries_this_disk : Nat
  total_entries : Nat
  central_dir_size : Nat
  central_dir_offset : Nat
  comment_length : Nat
deriving DecidableEq

/-- `struct CDFH` (buffer-based zip.c): 46 fixed bytes plus the name.
`file_name` is `none` exactly when the C pointer stays `NULL`
(`file_name_len == 0`). -/
structure CDFH where
  signature : Nat
  version_made_by : Nat
  version_needed : Nat
  bit_flag : Nat
  comp_method : Nat
  last_mod_file_time : Nat
  last_mod_file_date : Nat
  crc32 : Nat
  comp_size : Nat
  uncomp_size : Nat
  file_name_len : Nat
  extra_field_len : Nat
  file_comment_len : Nat
  disk_num_start : Nat
  internal_file_attr : Nat
  external_file_attr : Nat
  local_header_offset : Nat
  file_name : Option (List Nat)
deriving DecidableEq

/-- `struct ZipEntry`: the caller-visible record filled by pass 2 of
`zip_read_directory`.  `file_name` is `none` when the C field is never
assigned (stays uninitialized malloc memory). -/
structure ZipEntry where
  file_name : Option (List Nat)
  compressed_size : Nat
  uncompressed_size : Nat
  compression_method : Nat
  local_header_offset : Nat
  crc32 : Nat
  general_purpose_bit_flag : Nat
deriving DecidableEq

/-- `search_start_offset` of `find_eocd`:
`zip_size > 22 + 65535 ? zip_size - 22 - 65535 : 0`. -/
def eocdStart (size : Nat) : Nat :=
  if 22 + 65535 < size then size - 22 - 65535 else 0

/-- The descending scan loop of `find_eocd`, checking offset
`start + fuel` and stepping down to `start`.  Mirrors
`for (i = size - 22; i >= search_start; --i)` with the in-loop guard
`if ((size_t)(i + 3) >= zip_size) continue;`. -/
def scanAux (buf : List Nat) (size start : Nat) : Nat → ZipResult Nat
  | 0 =>
    if size ≤ start + 3 then .err .eocdNotFound
    else if readLE32 buf start = EOCD_SIGNATURE then .ok start
    else .err .eocdNotFound
  | fuel + 1 =>
    if size ≤ start + fuel + 1 + 3 then scanAux buf size start fuel
    else if readLE32 buf (start + fuel + 1) = EOCD_SIGNATURE then .ok (start + fuel + 1)
    else scanAux buf size start fuel

/-- `find_eocd` (buffer-based): reject buffers shorter than 22 bytes,
then scan the window `[search_start, size - 22]` from the top down. -/
def find_eocd (buf : List Nat) : ZipResult Nat :=
  if buf.length < 22 then .err .bufferTooSmall
  else scanAux buf buf.length (eocdStart buf.length)
    (buf.length - 22 - eocdStart buf.length)

/-- The byte indices dereferenced by the scan of `find_eocd`, in scan
order, with the same guards and the same early exit on a signature
match as `scanAux`. -/
def scanAuxReads (buf : List Nat) (size start : Nat) : Nat → List Nat
  | 0 =>
    if size ≤ start + 3 then []
    else [start, start + 1, start + 2, start + 3]
  | fuel + 1 =>
    if size ≤ start + fuel + 1 + 3 then scanAuxReads buf size start fuel
    else if readLE32 buf (start + fuel + 1) = EOCD_SIGNATURE then
      [start + fuel + 1, start + fuel + 2, start + fuel + 3, start + fuel + 4]
    else
      [start + fuel + 1, start + fuel + 2, start + fuel + 3, start + fuel + 4] ++
        scanAuxReads buf size start fuel

/-- All byte indices `find_eocd` dereferences on `buf`. -/
def findEocdReads (buf : List Nat) : List Nat :=
  if buf.length < 22 then []
  else scanAuxReads buf buf.length (eocdStart buf.length)
    (buf.length - 22 - eocdStart buf.length)

/-- The field decode of `read_eocd` at offset `p` (little-endian field
order: signature 4, this_disk 2, central_dir_disk 2,
total_entries_this_disk 2, total_entries 2, central_dir_size 4,
central_dir_offset 4, comment_length 2). -/
def eocdAt (buf : List Nat) (p : Nat) : EOCD :=
  { signature := readLE32 buf p
    this_disk := readLE16 buf (p + 4)
    central_dir_disk := readLE16 buf (p + 6)
    total_entries_this_disk := readLE16 buf (p + 8)
    total_entries := readLE16 buf (p + 10)
    central_dir_size := readLE32 buf (p + 12)
    central_dir_offset := readLE32 buf (p + 16)
    comment_length := readLE16 buf (p + 20) }

/-- `read_eocd` (buffer-based): bounds check `p + 22 <= size`
(else `ZIP_ERR_BUFFER_TRUNCATED`), then the signature check
(else `ZIP_ERR_EOCD_SIGNATURE_BAD`), then the field decode. -/
def read_eocd (buf : List Nat) (p : Nat) : ZipResult EOCD :=
  if buf.length < p + 22 then .err .bufferTruncated
  else if readLE32 buf p ≠ EOCD_SIGNATURE then .err .eocdSignatureBad
  else .ok (eocdAt buf p)

/-- The name bytes of the CDFH at `p`: `file_name_len` bytes starting
at `p + 46` (`memcpy` source in `read_cdfh`). -/
def nameBytesAt (buf : List Nat) (p : Nat) : List Nat :=
  (List.range (readLE16 buf (p + 28))).map fun j => read8 buf (p + 46 + j)

/-- The field decode of `read_cdfh` at offset `p` (the 46 fixed bytes in
little-endian field order, plus the name copy; the C `file_name`
pointer stays `NULL` when `file_name_len == 0`). -/
def cdfhAt (buf : List Nat) (p : Nat) : CDFH :=
  { signature := readLE32 buf p
    version_made_by := readLE16 buf (p + 4)
    version_needed := readLE16 buf (p + 6)
    bit_flag := readLE16 buf (p + 8)
    comp_method := readLE16 buf (p + 10)
    last_mod_file_time := readLE16 buf (p + 12)
    last_mod_file_date := readLE16 buf (p + 14)
    crc32 := readLE32 buf (p + 16)
    comp_size := readLE32 buf (p + 20)
    uncomp_size := readLE32 buf (p + 24)
    file_name_len := readLE16 buf (p + 28)
    extra_field_len := readLE16 buf (p + 30)
    file_comment_len := readLE16 buf (p + 32)
    disk_num_start := readLE16 buf (p + 34)
    internal_file_attr := readLE16 buf (p + 36)
    external_file_attr := readLE32 buf (p + 38)
    local_header_offset := readLE32 buf (p + 42)
    file_name :=
      if 0 < readLE16 buf (p + 28) then some (nameBytesAt buf p) else none }

/-- `read_cdfh` (buffer-based): bounds check `p + 46 <= size`
(else `ZIP_ERR_BUFFER_TRUNCATED`), then the signature check
(else `ZIP_ERR_CD_ENTRY_SIGNATURE_BAD`), then — only when
`file_name_len > 0` — the name bounds check
`p + 46 + file_name_len <= size` (else `ZIP_ERR_BUFFER_TRUNCATED`),
then the decode.  Note the signature is checked before the name
bounds. -/
def read_cdfh (buf : List Nat) (p : Nat) : ZipResult CDFH :=
  if buf.length < p + 46 then .err .bufferTruncated
  else if readLE32 buf p ≠ CDFH_SIGNATURE then .err .cdEntrySignatureBad
  else if 0 < readLE16 buf (p + 28) ∧ buf.length < p + 46 + readLE16 buf (p + 28) then
    .err .bufferTruncated
  else .ok (cdfhAt buf p)

/-- `fast_cdfh_va_params_sum`: returns
`file_name_len + extra_field_len + file_comment_len` of the record at
`p`, or the numeric error code `ZIP_ERR_BAD_BUFFER` through the same
`uint32_t` channel when `p + 46 > size` (the three `uint16_t` summands
fit in the result without overflow). -/
def fast_cdfh_va_params_sum (buf : List Nat) (p : Nat) : Nat :=
  if buf.length < p + 46 then ZIP_ERR_BAD_BUFFER
  else readLE16 buf (p + 28) + readLE16 buf (p + 30) + readLE16 buf (p + 32)

/-- `fast_cdfh_va_file_name`: returns `file_name_len` of the record at
`p`, or `ZIP_ERR_BAD_BUFFER` through the `uint16_t` channel when
`p + 46 > size`. -/
def fast_cdfh_va_file_name (buf : List Nat) (p : Nat) : Nat :=
  if buf.length < p + 46 then ZIP_ERR_BAD_BUFFER
  else readLE16 buf (p + 28)

/-- The step of the central-directory chain: record size
`46 + file_name_len + extra_field_len + file_comment_len` read at `p`. -/
def cdfhAdvance (buf : List Nat) (p : Nat) : Nat :=
  46 + readLE16 buf (p + 28) + readLE16 buf (p + 30) + readLE16 buf (p + 32)

/-- Cumulative chain offset: `chainOff buf start i` is the offset of the
`i`-th CDFH when walking from `start`, each record advancing by its own
`cdfhAdvance`. -/
def chainOff (buf : List Nat) (start : Nat) : Nat → Nat
  | 0 => start
  | i + 1 => chainOff buf start i + cdfhAdvance buf (chainOff buf start i)

/-- Pass 1 of `zip_read_directory`: for each of the `m` remaining
entries, check `pos + 46 <= size` (diagnostic: entry offset out of
bounds), advance by `fast_cdfh_va_params_sum + 46`, and check the new
offset against `bound` (the wrapped
`central_dir_offset + central_dir_size`; diagnostic: offset exceeds
bounds).  The pass also accumulates the name-arena size via
`fast_cdfh_va_file_name`, which only feeds the `malloc` call and is
dropped here. -/
def pass1 (buf : List Nat) (bound : Nat) : Nat → Nat → ZipResult Unit
  | _, 0 => .ok ()
  | pos, m + 1 =>
    if buf.length < pos + 46 then .err .cdfhOutOfBounds
    else if bound < pos + fast_cdfh_va_params_sum buf pos + 46 then .err .chainOverrun
    else pass1 buf bound (pos + fast_cdfh_va_params_sum buf pos + 46) m

/-- The ZipEntry filled from a decoded CDFH in pass 2 (the `entries[i]`
assignments; `file_name` is only assigned when `file_name_len > 0`,
which coincides with `cdfh.file_name` being non-`NULL`). -/
def entryOfCDFH (c : CDFH) : ZipEntry :=
  { file_name := c.file_name
    compressed_size := c.comp_size
    uncompressed_size := c.uncomp_size
    compression_method := c.comp_method
    local_header_offset := c.local_header_offset
    crc32 := c.crc32
    general_purpose_bit_flag := c.bit_flag }

/-- The entry the walker produces for the CDFH at `p`. -/
def entryAt (buf : List Nat) (p : Nat) : ZipEntry :=
  entryOfCDFH (cdfhAt buf p)

/-- Pass 2 of `zip_read_directory`: decode each CDFH with `read_cdfh`
(propagating its error), fill one ZipEntry per record, and advance by
`46 + file_name_len + extra_field_len + file_comment_len`. -/
def pass2 (buf : List Nat) : Nat → Nat → ZipResult (List ZipEntry)
  | _, 0 => .ok []
  | pos, m + 1 =>
    match read_cdfh buf pos with
    | .err e => .err e
    | .ok c =>
      match pass2 buf (pos + 46 + c.file_name_len + c.extra_field_len + c.file_comment_len) m with
      | .err e => .err e
      | .ok rest => .ok (entryOfCDFH c :: rest)

/-- `zip_read_directory` (buffer-based zip.c, lines 869-996).  Branches
in source order: empty file (`st.st_size == 0`: `NULL`, count 0),
`find_eocd`, `read_eocd`, the `total_entries == 0` early `NULL` return,
pass 1 over the chain with the wrapped bound
`(central_dir_offset + central_dir_size) % 2^32` (the C sum of two
`uint32_t` is taken modulo 2^32 before the `off_t` comparison), then
pass 2 building the entry array. -/
def zip_read_directory (buf : List Nat) : ZipResult (List ZipEntry) :=
  if buf.length = 0 then .err .emptyFile
  else
    match find_eocd buf with
    | .err e => .err e
    | .ok p =>
      match read_eocd buf p with
      | .err e => .err e
      | .ok eocd =>
        if eocd.total_entries = 0 then .err .emptyArchive
        else
          match pass1 buf ((eocd.central_dir_offset + eocd.central_dir_size) % 4294967296)
              eocd.central_dir_offset eocd.total_entries with
          | .err e => .err e
          | .ok _ => pass2 buf eocd.central_dir_offset eocd.total_entries

/-- Structural well-formedness of an archive, relative to the EOCD
position `p` the locator finds and its decode `e`: the locator and
decoder succeed, the central-directory end offset fits in 32 bits, and
every one of the `total_entries` chained CDFH records has the CDFH
signature, lies (with its name) inside the buffer, and stays within
`central_dir_offset + central_dir_size`. -/
def WellFormedAt (buf : List Nat) (p : Nat) (e : EOCD) : Prop :=
  find_eocd buf = .ok p ∧
  read_eocd buf p = .ok e ∧
  e.central_dir_offset + e.central_dir_size < 4294967296 ∧
  ∀ i, i < e.total_entries →
    readLE32 buf (chainOff buf e.central_dir_offset i) = CDFH_SIGNATURE ∧
    chainOff buf e.central_dir_offset i + 46 +
      readLE16 buf (chainOff buf e.central_dir_offset i + 28) ≤ buf.length ∧
    chainOff buf e.central_dir_offset (i + 1) ≤
      e.central_dir_offset + e.central_dir_size

instance (buf : List Nat) (p : Nat) (e : EOCD) : Decidable (WellFormedAt buf p e) := by
  unfold WellFormedAt
  infer_instance

/-- A 73-byte archive: one CDFH at offset 0 for the 5-byte name
`a.txt` (bytes 97 46 116 120 116), `comp_method = 0`,
`comp_size = uncomp_size = 10`, followed by the EOCD at offset 51 with
`total_entries = 1`, `central_dir_size = 51`, `central_dir_offset = 0`. -/
def arch73 : List Nat :=
  [0x50, 0x4b, 0x01, 0x02,
   0, 0,
   0, 0,
   0, 0,
   0, 0,
   0, 0,
   0, 0,
   0, 0, 0, 0,
   10, 0, 0, 0,
   10, 0, 0, 0,
   5, 0,
   0, 0,
   0, 0,
   0, 0,
   0, 0,
   0, 0, 0, 0,
   0, 0, 0, 0,
   97, 46, 116, 120, 116,
   0x50, 0x4b, 0x05, 0x06,
   0, 0,
   0, 0,
   1, 0,
   1, 0,
   51, 0, 0, 0,
   0, 0, 0, 0,
   0, 0]

/-- The decoded EOCD of `arch73`. -/
def e73 : EOCD := ⟨0x06054b50, 0, 0, 1, 1, 51, 0, 0⟩

/-- `arch73` with `central_dir_size` lowered to 10 (byte 63), so the
one-record chain overruns `central_dir_offset + central_dir_size`. -/
def arch73over : List Nat := arch73.set 63 10

/-- The decoded EOCD of `arch73over`. -/
def e73over : EOCD := ⟨0x06054b50, 0, 0, 1, 1, 10, 0, 0⟩

/-- A 68-byte archive: one CDFH at offset 0 with `file_name_len = 0`
(all variable-length fields empty), EOCD at offset 46 with
`total_entries = 1`, `central_dir_size = 46`, `central_dir_offset = 0`. -/
def arch68 : List Nat :=
  [0x50, 0x4b, 0x01, 0x02] ++ List.replicate 42 0 ++
    [0x50, 0x4b, 0x05, 0x06, 0, 0, 0, 0, 1, 0, 1, 0, 46, 0, 0, 0, 0, 0, 0, 0, 0, 0]

/-- The minimal 22-byte archive: exactly a valid EOCD with all counts
zero and `central_dir_offset = 0`. -/
def eocdOnly : List Nat := [0x50, 0x4b, 0x05, 0x06] ++ List.replicate 18 0

/-- The decoded EOCD of `eocdOnly`. -/
def eocdOnlyRec : EOCD := ⟨0x06054b50, 0, 0, 0, 0, 0, 0, 0⟩

/-- 46 bytes with a bad CDFH signature (all zero) and
`file_name_len = 1` (byte 28), so the fixed part fits exactly but the
name does not. -/
def cdfh46bad : List Nat := List.replicate 28 0 ++ [1] ++ List.replicate 17 0

/-- 46 bytes whose three variable-length fields sum to 6
(`file_name_len = 6`, the others 0): an in-bounds record on which
`fast_cdfh_va_params_sum` returns the same value 6 as its error exit. -/
def bufC10 : List Nat := List.replicate 28 0 ++ [6] ++ List.replicate 17 0

/-- A 36-byte buffer whose only EOCD-signature occurrence is at offset
5, strictly inside the scan window `[0, 14]`. -/
def bufW2 : List Nat := [0, 0, 0, 0, 0, 0x50, 0x4b, 0x05, 0x06] ++ List.replicate 27 0

/-- The single entry `zip_read_directory` produces on `arch73`. -/
def demoEntry : ZipEntry := ⟨some [97, 46, 116, 120, 116], 10, 10, 0, 0, 0, 0⟩

/-- An entry as the caller observes it in one execution: when pass 2
left `file_name` unassigned (`file_name_len == 0`, modeled `none`),
the field is uninitialized `malloc` memory, whose read-back is an
indeterminate value `j` that a particular execution happens to hold
(C semantics of reading an indeterminate object); an assigned
`file_name` is observed as written. -/
def patchEntry (j : Option (List Nat)) (e : ZipEntry) : ZipEntry :=
  match e.file_name with
  | some _ => e
  | none => { e with file_name := j }

/-- Observation of the produced entry list in one execution: `junk i`
is the indeterminate content backing `entries[i].file_name` wherever
pass 2 left it unassigned. -/
def applyJunk (junk : Nat → Option (List Nat)) : Nat → List ZipEntry → List ZipEntry
  | _, [] => []
  | i, e :: rest => patchEntry (junk i) e :: applyJunk junk (i + 1) rest

/-- One execution of `zip_read_directory` as the caller observes it:
the parse result, with each unassigned `file_name` reading back as the
execution-dependent indeterminate value `junk i`.  Two invocations on
the same buffer are two (possibly different) choices of `junk`; the
parse itself does not depend on `junk`. -/
def zip_read_directory_run (buf : List Nat) (junk : Nat → Option (List Nat)) :
    ZipResult (List ZipEntry) :=
  match zip_read_directory buf with
  | .err e => .err e
  | .ok es => .ok (applyJunk junk 0 es)

theorem find_eocd_ok_length (buf : List Nat) (p : Nat) (h : find_eocd buf = .ok p) :
    22 ≤ buf.length := by
  by_cases hl : buf.length < 22
  · unfold find_eocd at h
    rw [if_pos hl] at h
    exact ZipResult.noConfusion h
  · omega

theorem eocdStart_le (size : Nat) : eocdStart size ≤ size - 22 := by
  unfold eocdStart
  split <;> omega

theorem scanAux_ok_sig (buf : List Nat) (size start : Nat) :
    ∀ fuel j, scanAux buf size start fuel = .ok j →
      start ≤ j ∧ j ≤ start + fuel ∧ j + 3 < size ∧ readLE32 buf j = EOCD_SIGNATURE ∧
      ∀ i, j < i → i ≤ start + fuel → i + 3 < size → readLE32 buf i ≠ EOCD_SIGNATURE := by
  intro fuel
  induction fuel with
  | zero =>
    intro j h
    unfold scanAux at h
    by_cases hg : size ≤ start + 3
    · rw [if_pos hg] at h
      exact ZipResult.noConfusion h
    · rw [if_neg hg] at h
      by_cases hsig : readLE32 buf start = EOCD_SIGNATURE
      · rw [if_pos hsig] at h
        cases h
        exact ⟨Nat.le_refl _, by omega, by omega, hsig, fun i h1 h2 _ => by omega⟩
      · rw [if_neg hsig] at h
        exact ZipResult.noConfusion h
  | succ fuel ih =>
    intro j h
    unfold scanAux at h
    by_cases hg : size ≤ start + fuel + 1 + 3
    · rw [if_pos hg] at h
      obtain ⟨h1, h2, h3, h4, h5⟩ := ih j h
      refine ⟨h1, by omega, h3, h4, fun i hji hile hi3 => ?_⟩
      by_cases hc : i ≤ start + fuel
      · exact h5 i hji hc hi3
      · omega
    · rw [if_neg hg] at h
      by_cases hsig : readLE32 buf (start + fuel + 1) = EOCD_SIGNATURE
      · rw [if_pos hsig] at h
        cases h
        exact ⟨by omega, by omega, by omega, hsig, fun i h1 h2 _ => by omega⟩
      · rw [if_neg hsig] at h
        obtain ⟨h1, h2, h3, h4, h5⟩ := ih j h
        refine ⟨h1, by omega, h3, h4, fun i hji hile hi3 => ?_⟩
        by_cases hc : i ≤ start + fuel
        · exact h5 i hji hc hi3
        · have : i = start + fuel + 1 := by omega
          rw [this]
          exact hsig

theorem scanAux_err_all (buf : List Nat) (size start : Nat) :
    ∀ fuel e, scanAux buf size start fuel = .err e →
      e = .eocdNotFound ∧
      ∀ i, start ≤ i → i ≤ start + fuel → i + 3 < size → readLE32 buf i ≠ EOCD_SIGNATURE := by
  intro fuel
  induction fuel with
  | zero =>
    intro e h
    unfold scanAux at h
    by_cases hg : size ≤ start + 3
    · rw [if_pos hg] at h
      cases h
      exact ⟨rfl, fun i h1 h2 h3 => by omega⟩
    · rw [if_neg hg] at h
      by_cases hsig : readLE32 buf start = EOCD_SIGNATURE
      · rw [if_pos hsig] at h
        exact ZipResult.noConfusion h
      · rw [if_neg hsig] at h
        cases h
        refine ⟨rfl, fun i h1 h2 _ => ?_⟩
        have : i = start := by omega
        rw [this]
        exact hsig
  | succ fuel ih =>
    intro e h
    unfold scanAux at h
    by_cases hg : size ≤ start + fuel + 1 + 3
    · rw [if_pos hg] at h
      obtain ⟨h1, h2⟩ := ih e h
      refine ⟨h1, fun i hs hile hi3 => ?_⟩
      by_cases hc : i ≤ start + fuel
      · exact h2 i hs hc hi3
      · omega
    · rw [if_neg hg] at h
      by_cases hsig : readLE32 buf (start + fuel + 1) = EOCD_SIGNATURE
      · rw [if_pos hsig] at h
        exact ZipResult.noConfusion h
      · rw [if_neg hsig] at h
        obtain ⟨h1, h2⟩ := ih e h
        refine ⟨h1, fun i hs hile hi3 => ?_⟩
        by_cases hc : i ≤ start + fuel
        · exact h2 i hs hc hi3
        · have : i = start + fuel + 1 := by omega
          rw [this]
          exact hsig

theorem chainOff_shift (buf : List Nat) (pos : Nat) :
    ∀ k, chainOff buf pos (k + 1) = chainOff buf (pos + cdfhAdvance buf pos) k := by
  intro k
  induction k with
  | zero => rfl
  | succ k ih =>
    show chainOff buf pos (k + 1) + cdfhAdvance buf (chainOff buf pos (k + 1)) = _
    rw [ih]
    rfl

theorem fast_sum_inbounds {buf : List Nat} {p : Nat} (h : p + 46 ≤ buf.length) :
    fast_cdfh_va_params_sum buf p =
      readLE16 buf (p + 28) + readLE16 buf (p + 30) + readLE16 buf (p + 32) := by
  unfold fast_cdfh_va_params_sum
  rw [if_neg (by omega)]

theorem fast_sum_advance {buf : List Nat} {p : Nat} (h : p + 46 ≤ buf.length) :
    p + fast_cdfh_va_params_sum buf p + 46 = p + cdfhAdvance buf p := by
  rw [fast_sum_inbounds h]
  unfold cdfhAdvance
  omega

theorem read_cdfh_ok_of {buf : List Nat} {p : Nat}
    (hsig : readLE32 buf p = CDFH_SIGNATURE)
    (hbd : p + 46 + readLE16 buf (p + 28) ≤ buf.length) :
    read_cdfh buf p = .ok (cdfhAt buf p) := by
  unfold read_cdfh
  rw [if_neg (by omega), if_neg (by simp [hsig]), if_neg (by omega)]

theorem pass1_ok_of (buf : List Nat) (bound : Nat) :
    ∀ (m pos : Nat),
      (∀ k, k < m → chainOff buf pos k + 46 ≤ buf.length) →
      (∀ k, k < m → chainOff buf pos (k + 1) ≤ bound) →
      pass1 buf bound pos m = .ok () := by
  intro m
  induction m with
  | zero => intro pos _ _; rfl
  | succ m ih =>
    intro pos hin hbd
    have h0 : pos + 46 ≤ buf.length := hin 0 (by omega)
    have h1 : chainOff buf pos 1 ≤ bound := hbd 0 (by omega)
    have hadv : pos + fast_cdfh_va_params_sum buf pos + 46 = pos + cdfhAdvance buf pos :=
      fast_sum_advance h0
    have hc1 : chainOff buf pos 1 = pos + cdfhAdvance buf pos := rfl
    unfold pass1
    rw [if_neg (by omega), if_neg (by omega), hadv]
    apply ih
    · intro k hk
      rw [← chainOff_shift]
      exact hin (k + 1) (by omega)
    · intro k hk
      rw [← chainOff_shift]
      exact hbd (k + 1) (by omega)

theorem pass1_err_shape (buf : List Nat) (bound : Nat) :
    ∀ (m pos : Nat) (e : ZipErr), pass1 buf bound pos m = .err e →
      e = .cdfhOutOfBounds ∨ e = .chainOverrun := by
  intro m
  induction m with
  | zero =>
    intro pos e h
    exact ZipResult.noConfusion h
  | succ m ih =>
    intro pos e h
    unfold pass1 at h
    by_cases h1 : buf.length < pos + 46
    · rw [if_pos h1] at h
      cases h
      exact Or.inl rfl
    · rw [if_neg h1] at h
      by_cases h2 : bound < pos + fast_cdfh_va_params_sum buf pos + 46
      · rw [if_pos h2] at h
        cases h
        exact Or.inr rfl
      · rw [if_neg h2] at h
        exact ih _ e h

theorem pass1_ok_chain (buf : List Nat) (bound : Nat) :
    ∀ (m pos : Nat), pass1 buf bound pos m = .ok () →
      ∀ k, k < m →
        chainOff buf pos k + 46 ≤ buf.length ∧ chainOff buf pos (k + 1) ≤ bound := by
  intro m
  induction m with
  | zero =>
    intro pos _ k hk
    omega
  | succ m ih =>
    intro pos h k hk
    unfold pass1 at h
    by_cases h1 : buf.length < pos + 46
    · rw [if_pos h1] at h
      exact ZipResult.noConfusion h
    · rw [if_neg h1] at h
      by_cases h2 : bound < pos + fast_cdfh_va_params_sum buf pos + 46
      · rw [if_pos h2] at h
        exact ZipResult.noConfusion h
      · rw [if_neg h2] at h
        have hadv : pos + fast_cdfh_va_params_sum buf pos + 46 = pos + cdfhAdvance buf pos :=
          fast_sum_advance (by omega)
        rw [hadv] at h
        match k with
        | 0 =>
          have hc0 : chainOff buf pos 0 = pos := rfl
          have hc1 : chainOff buf pos (0 + 1) = pos + cdfhAdvance buf pos := rfl
          omega
        | k + 1 =>
          have := ih _ h k (by omega)
          rw [← chainOff_shift, ← chainOff_shift] at this
          exact this

theorem pass2_ok_of (buf : List Nat) :
    ∀ (m pos : Nat),
      (∀ k, k < m → readLE32 buf (chainOff buf pos k) = CDFH_SIGNATURE) →
      (∀ k, k < m →
        chainOff buf pos k + 46 + readLE16 buf (chainOff buf pos k + 28) ≤ buf.length) →
      pass2 buf pos m = .ok ((List.range m).map fun j => entryAt buf (chainOff buf pos j)) := by
  intro m
  induction m with
  | zero =>
    intro pos _ _
    rfl
  | succ m ih =>
    intro pos hsig hbd
    have hrc : read_cdfh buf pos = .ok (cdfhAt buf pos) :=
      read_cdfh_ok_of (hsig 0 (by omega)) (hbd 0 (by omega))
    have hpos : pos + 46 + (cdfhAt buf pos).file_name_len + (cdfhAt buf pos).extra_field_len +
        (cdfhAt buf pos).file_comment_len = pos + cdfhAdvance buf pos := by
      show pos + 46 + readLE16 buf (pos + 28) + readLE16 buf (pos + 30) +
        readLE16 buf (pos + 32) = _
      unfold cdfhAdvance
      omega
    have hrest := ih (pos + cdfhAdvance buf pos)
      (fun k hk => by rw [← chainOff_shift]; exact hsig (k + 1) (by omega))
      (fun k hk => by rw [← chainOff_shift]; exact hbd (k + 1) (by omega))
    unfold pass2
    rw [hrc]
    dsimp only
    rw [hpos, hrest]
    dsimp only
    congr 1
    rw [List.range_succ_eq_map]
    simp only [List.map_cons, List.map_map]
    congr 1
    apply List.map_congr_left
    intro a _
    simp only [Function.comp_apply]
    rw [show Nat.succ a = a + 1 from rfl, chainOff_shift]

theorem zip_read_directory_eq_of_wf (buf : List Nat) (p : Nat) (e : EOCD)
    (hwf : WellFormedAt buf p e) (hn : e.total_entries ≠ 0) :
    zip_read_directory buf =
      .ok ((List.range e.total_entries).map fun i =>
        entryAt buf (chainOff buf e.central_dir_offset i)) := by
  obtain ⟨hf, he, hlt, hch⟩ := hwf
  have h22 : 22 ≤ buf.length := find_eocd_ok_length buf p hf
  have hlen : ¬(buf.length = 0) := by omega
  have hmod : (e.central_dir_offset + e.central_dir_size) % 4294967296 =
      e.central_dir_offset + e.central_dir_size := Nat.mod_eq_of_lt hlt
  have hp1 : pass1 buf ((e.central_dir_offset + e.central_dir_size) % 4294967296)
      e.central_dir_offset e.total_entries = .ok () := by
    rw [hmod]
    apply pass1_ok_of
    · intro k hk
      have := (hch k hk).2.1
      omega
    · intro k hk
      exact (hch k hk).2.2
  have hp2 := pass2_ok_of buf e.total_entries e.central_dir_offset
    (fun k hk => (hch k hk).1) (fun k hk => (hch k hk).2.1)
  unfold zip_read_directory
  rw [if_neg hlen, hf]
  dsimp only
  rw [he]
  dsimp only
  rw [if_neg hn, hp1]
  dsimp only
  exact hp2

theorem scanAuxReads_lt (buf : List Nat) (size start : Nat) :
    ∀ fuel j, j ∈ scanAuxReads buf size start fuel → j < size := by
  intro fuel
  induction fuel with
  | zero =>
    intro j hj
    unfold scanAuxReads at hj
    by_cases hg : size ≤ start + 3
    · rw [if_pos hg] at hj
      simp at hj
    · rw [if_neg hg] at hj
      simp only [List.mem_cons, List.not_mem_nil, or_false] at hj
      rcases hj with h | h | h | h <;> omega
  | succ fuel ih =>
    intro j hj
    unfold scanAuxReads at hj
    by_cases hg : size ≤ start + fuel + 1 + 3
    · rw [if_pos hg] at hj
      exact ih j hj
    · rw [if_neg hg] at hj
      by_cases hsig : readLE32 buf (start + fuel + 1) = EOCD_SIGNATURE
      · rw [if_pos hsig] at hj
        simp only [List.mem_cons, List.not_mem_nil, or_false] at hj
        rcases hj with h | h | h | h <;> omega
      · rw [if_neg hsig] at hj
        rw [List.mem_append] at hj
        rcases hj with h | h
        · simp only [List.mem_cons, List.not_mem_nil, or_false] at h
          rcases h with h | h | h | h <;> omega
        · exact ih j h

/-- Claim C1, amended (the amendment adds `total_entries ≥ 1`): for
every well-formed archive buffer whose EOCD declares at least one
entry, `zip_read_directory` succeeds and returns exactly
`EOCD.total_entries` ZipEntry records, the `i`-th decoded from the
`i`-th CDFH of the chain — central-directory on-disk order, never
reordered.  (For `total_entries = 0` the function returns `NULL`,
indistinguishable from failure; see the counterexample.) -/
theorem zip_read_directory_entry_count_order (buf : List Nat) (p : Nat) (e : EOCD)
    (hwf : WellFormedAt buf p e) (hn : 1 ≤ e.total_entries) :
    zip_read_directory buf =
      .ok ((List.range e.total_entries).map fun i =>
        entryAt buf (chainOff buf e.central_dir_offset i)) ∧
    ((List.range e.total_entries).map fun i =>
      entryAt buf (chainOff buf e.central_dir_offset i)).length = e.total_entries := by
  refine ⟨zip_read_directory_eq_of_wf buf p e hwf (by omega), ?_⟩
  simp

/-- Witness for C1: on the concrete one-entry archive `arch73` the
theorem applies and yields the one-element entry list. -/
theorem zip_read_directory_entry_count_order_witness :
    zip_read_directory arch73 =
      .ok ((List.range e73.total_entries).map fun i =>
        entryAt arch73 (chainOff arch73 e73.central_dir_offset i)) :=
  (zip_read_directory_entry_count_order arch73 51 e73 (by decide) (by decide)).1

/-- Counterexample to C1 as stated: the minimal empty archive is
well-formed, yet `zip_read_directory` returns `NULL` (modeled
`.err .emptyArchive`) rather than succeeding with zero entries. -/
theorem wellformed_empty_archive_not_ok :
    WellFormedAt eocdOnly 0 eocdOnlyRec ∧ eocdOnlyRec.total_entries = 0 ∧
    zip_read_directory eocdOnly = .err .emptyArchive ∧
    ∀ es : List ZipEntry, zip_read_directory eocdOnly ≠ .ok es := by
  refine ⟨by decide, by decide, by decide, ?_⟩
  intro es h
  have h2 : zip_read_directory eocdOnly = .err .emptyArchive := by decide
  rw [h2] at h
  exact ZipResult.noConfusion h

/-- Claim C2: if the EOCD is located and decoded but the cumulative
CDFH chain offset (advancing by `46 + name_len + extra_len +
comment_len` per record) exceeds `central_dir_offset +
central_dir_size` before `total_entries` records have been walked,
`zip_read_directory` fails with one of the two central-directory
corruption errors of pass 1 and returns no entries. -/
theorem zip_read_directory_chain_overrun (buf : List Nat) (p : Nat) (e : EOCD)
    (hf : find_eocd buf = .ok p) (he : read_eocd buf p = .ok e)
    (hover : ∃ k, k < e.total_entries ∧
      e.central_dir_offset + e.central_dir_size <
        chainOff buf e.central_dir_offset (k + 1)) :
    zip_read_directory buf = .err .cdfhOutOfBounds ∨
    zip_read_directory buf = .err .chainOverrun := by
  obtain ⟨k, hk, hgt⟩ := hover
  have h22 : 22 ≤ buf.length := find_eocd_ok_length buf p hf
  have hlen : ¬(buf.length = 0) := by omega
  have hn : ¬(e.total_entries = 0) := by omega
  cases hp1 : pass1 buf ((e.central_dir_offset + e.central_dir_size) % 4294967296)
      e.central_dir_offset e.total_entries with
  | err er =>
    have hshape := pass1_err_shape buf _ e.total_entries e.central_dir_offset er hp1
    have hparse : zip_read_directory buf = .err er := by
      unfold zip_read_directory
      rw [if_neg hlen, hf]
      dsimp only
      rw [he]
      dsimp only
      rw [if_neg hn, hp1]
    cases hshape with
    | inl h => exact Or.inl (by rw [hparse, h])
    | inr h => exact Or.inr (by rw [hparse, h])
  | ok u =>
    exfalso
    have hchain := (pass1_ok_chain buf _ e.total_entries e.central_dir_offset
      (by rw [hp1]) k hk).2
    have hle : (e.central_dir_offset + e.central_dir_size) % 4294967296 ≤
        e.central_dir_offset + e.central_dir_size := Nat.mod_le _ _
    omega

/-- Witness for C2: on `arch73over` (central_dir_size lowered to 10)
the one-record chain reaches offset 51 > 10 and the parse fails. -/
theorem zip_read_directory_chain_overrun_witness :
    zip_read_directory arch73over = .err .cdfhOutOfBounds ∨
    zip_read_directory arch73over = .err .chainOverrun :=
  zip_read_directory_chain_overrun arch73over 51 e73over (by decide) (by decide)
    ⟨0, by decide, by decide⟩

/-- Claim C3: for every buffer of length at least 22, `find_eocd`
returns only offsets of the window `[eocdStart size, size - 22]`
holding the EOCD signature as a 4-byte little-endian value, no window
offset nearer the end of the buffer holds the signature, and whenever
some window offset holds the signature the locator succeeds with an
offset at least as near the end — i.e. it returns the occurrence
nearest EOF, so a signature appearing earlier (e.g. inside the trailing
comment) is skipped. -/
theorem find_eocd_nearest_end (buf : List Nat) (h22 : 22 ≤ buf.length) :
    (∀ j, find_eocd buf = .ok j →
      eocdStart buf.length ≤ j ∧ j + 22 ≤ buf.length ∧
      readLE32 buf j = EOCD_SIGNATURE) ∧
    (∀ j i, find_eocd buf = .ok j → j < i → i + 22 ≤ buf.length →
      readLE32 buf i ≠ EOCD_SIGNATURE) ∧
    (∀ i, eocdStart buf.length ≤ i → i + 22 ≤ buf.length →
      readLE32 buf i = EOCD_SIGNATURE →
      ∃ j, find_eocd buf = .ok j ∧ i ≤ j) := by
  have hs : eocdStart buf.length ≤ buf.length - 22 := eocdStart_le buf.length
  have hfe : find_eocd buf = scanAux buf buf.length (eocdStart buf.length)
      (buf.length - 22 - eocdStart buf.length) := by
    unfold find_eocd
    rw [if_neg (by omega)]
  have htop : eocdStart buf.length + (buf.length - 22 - eocdStart buf.length) =
      buf.length - 22 := by omega
  refine ⟨?_, ?_, ?_⟩
  · intro j h
    rw [hfe] at h
    obtain ⟨h1, h2, h3, h4, _⟩ := scanAux_ok_sig buf buf.length _ _ j h
    exact ⟨h1, by omega, h4⟩
  · intro j i h hji hi
    rw [hfe] at h
    obtain ⟨h1, h2, h3, h4, h5⟩ := scanAux_ok_sig buf buf.length _ _ j h
    exact h5 i hji (by omega) (by omega)
  · intro i hi1 hi2 hsig
    cases hr : find_eocd buf with
    | ok j =>
      refine ⟨j, rfl, ?_⟩
      rw [hfe] at hr
      obtain ⟨h1, h2, h3, h4, h5⟩ := scanAux_ok_sig buf buf.length _ _ j hr
      by_contra hij
      exact h5 i (by omega) (by omega) (by omega) hsig
    | err er =>
      rw [hfe] at hr
      obtain ⟨_, h2⟩ := scanAux_err_all buf buf.length _ _ er hr
      exact absurd hsig (h2 i hi1 (by omega) (by omega))

/-- Witness for C3: on `bufW2` (only signature occurrence at offset 5)
the locator returns 5, and the theorem instance shows offset 10 of the
window holds no signature. -/
theorem find_eocd_nearest_end_witness : readLE32 bufW2 10 ≠ EOCD_SIGNATURE :=
  (find_eocd_nearest_end bufW2 (by decide)).2.1 5 10 (by decide) (by decide) (by decide)

/-- Claim C4: the claim says an archive whose EOCD declares
`total_entries = 0` parses to an empty entry collection with success
status.  The code instead returns `NULL` (the same value as every
failure; `main.c` exits with `EXIT_FAILURE` on it): on the minimal
22-byte valid EOCD the decode succeeds with `total_entries = 0`, yet
`zip_read_directory` takes the `NULL` exit, modeled
`.err .emptyArchive`. -/
theorem zip_read_directory_empty_archive_failure :
    read_eocd eocdOnly 0 = .ok eocdOnlyRec ∧ eocdOnlyRec.total_entries = 0 ∧
    zip_read_directory eocdOnly = .err .emptyArchive := by
  exact ⟨by decide, by decide, by decide⟩

/-- Claim C5, amended: `read_cdfh` fails with `TRUNCATED` iff
`p + 46 > size`, or `p + 46 <= size` and the signature matches and
`name_len > 0` and `p + 46 + name_len > size` (the amendment: the
signature check precedes the name-bounds check, so a bad signature
reports `SIGNATURE_BAD` even when the name would also overrun); it
fails with the central-directory-entry `SIGNATURE_BAD` iff
`p + 46 <= size` and the signature differs; otherwise it succeeds with
the decoded fixed fields and the name copy. -/
theorem read_cdfh_spec (buf : List Nat) (p : Nat) :
    (read_cdfh buf p = .err .bufferTruncated ↔
      (buf.length < p + 46 ∨
        (p + 46 ≤ buf.length ∧ readLE32 buf p = CDFH_SIGNATURE ∧
          0 < readLE16 buf (p + 28) ∧
          buf.length < p + 46 + readLE16 buf (p + 28)))) ∧
    (read_cdfh buf p = .err .cdEntrySignatureBad ↔
      (p + 46 ≤ buf.length ∧ readLE32 buf p ≠ CDFH_SIGNATURE)) ∧
    (p + 46 ≤ buf.length → readLE32 buf p = CDFH_SIGNATURE →
      (readLE16 buf (p + 28) = 0 ∨ p + 46 + readLE16 buf (p + 28) ≤ buf.length) →
      read_cdfh buf p = .ok (cdfhAt buf p)) := by
  unfold read_cdfh
  by_cases h1 : buf.length < p + 46
  · rw [if_pos h1]
    refine ⟨Iff.intro (fun _ => Or.inl h1) (fun _ => rfl),
      Iff.intro (fun h => absurd h (by simp)) (fun h => absurd h.1 (by omega)),
      fun hle _ _ => absurd hle (by omega)⟩
  · rw [if_neg h1]
    by_cases h2 : readLE32 buf p = CDFH_SIGNATURE
    · rw [if_neg (by simp [h2])]
      by_cases h3 : 0 < readLE16 buf (p + 28) ∧
          buf.length < p + 46 + readLE16 buf (p + 28)
      · rw [if_pos h3]
        refine ⟨Iff.intro (fun _ => Or.inr ⟨by omega, h2, h3.1, h3.2⟩) (fun _ => rfl),
          Iff.intro (fun h => absurd h (by simp)) (fun h => absurd h2 h.2),
          fun _ _ hname => ?_⟩
        exfalso
        rcases hname with h | h <;> omega
      · rw [if_neg h3]
        refine ⟨Iff.intro (fun h => absurd h (by simp)) (fun h => ?_),
          Iff.intro (fun h => absurd h (by simp)) (fun h => absurd h2 h.2),
          fun _ _ _ => rfl⟩
        rcases h with h | h
        · exact absurd h (by omega)
        · exact absurd ⟨h.2.2.1, h.2.2.2⟩ h3
    · rw [if_pos h2]
      refine ⟨Iff.intro (fun h => absurd h (by simp)) (fun h => ?_),
        Iff.intro (fun _ => ⟨by omega, h2⟩) (fun _ => rfl),
        fun _ hs _ => absurd hs h2⟩
      rcases h with h | h
      · exact absurd h (by omega)
      · exact absurd h.2.1 h2

/-- Witness for C5: the amended success case applied to the concrete
archive `arch68` at offset 0. -/
theorem read_cdfh_spec_witness : read_cdfh arch68 0 = .ok (cdfhAt arch68 0) :=
  (read_cdfh_spec arch68 0).2.2 (by decide) (by decide) (Or.inl (by decide))

/-- Counterexample to C5 as stated: on a 46-byte record with a bad
signature and `name_len = 1` the claim's condition for `TRUNCATED`
holds (`p + 46 <= size`, `name_len > 0`, `p + 46 + name_len > size`),
yet `read_cdfh` reports `SIGNATURE_BAD`, because the signature is
checked first. -/
theorem read_cdfh_truncated_claim_false :
    (0 + 46 ≤ cdfh46bad.length ∧ 0 < readLE16 cdfh46bad 28 ∧
      cdfh46bad.length < 0 + 46 + readLE16 cdfh46bad 28) ∧
    read_cdfh cdfh46bad 0 = .err .cdEntrySignatureBad ∧
    read_cdfh cdfh46bad 0 ≠ .err .bufferTruncated := by decide

/-- Claim C6: for every buffer shorter than 22 bytes the locator
returns `TOO_SMALL`, and on every buffer each byte index the scan
dereferences is strictly below the buffer length. -/
theorem find_eocd_bounds_safety (buf : List Nat) :
    (buf.length < 22 → find_eocd buf = .err .bufferTooSmall) ∧
    (∀ j, j ∈ findEocdReads buf → j < buf.length) := by
  constructor
  · intro h
    unfold find_eocd
    rw [if_pos h]
  · intro j hj
    unfold findEocdReads at hj
    by_cases h : buf.length < 22
    · rw [if_pos h] at hj
      simp at hj
    · rw [if_neg h] at hj
      exact scanAuxReads_lt buf buf.length _ _ j hj

/-- Witness for C6: a 21-byte buffer is rejected as too small. -/
theorem find_eocd_bounds_safety_witness :
    find_eocd (List.replicate 21 0) = .err .bufferTooSmall :=
  (find_eocd_bounds_safety (List.replicate 21 0)).1 (by decide)

/-- Claim C7: a well-formed archive whose single CDFH carries the name
`a.txt` (bytes 97 46 116 120 116), `comp_method = 0` and
`comp_size = uncomp_size = 10` parses to exactly one ZipEntry with that
name and both sizes 10. -/
theorem zip_read_directory_single_entry (buf : List Nat) (p : Nat) (e : EOCD)
    (hwf : WellFormedAt buf p e) (h1 : e.total_entries = 1)
    (hname : nameBytesAt buf e.central_dir_offset = [97, 46, 116, 120, 116])
    (hnl : readLE16 buf (e.central_dir_offset + 28) = 5)
    (hm : readLE16 buf (e.central_dir_offset + 10) = 0)
    (hcs : readLE32 buf (e.central_dir_offset + 20) = 10)
    (hus : readLE32 buf (e.central_dir_offset + 24) = 10) :
    zip_read_directory buf =
      .ok [{ file_name := some [97, 46, 116, 120, 116]
             compressed_size := 10
             uncompressed_size := 10
             compression_method := 0
             local_header_offset := readLE32 buf (e.central_dir_offset + 42)
             crc32 := readLE32 buf (e.central_dir_offset + 16)
             general_purpose_bit_flag := readLE16 buf (e.central_dir_offset + 8) }] := by
  have h := zip_read_directory_eq_of_wf buf p e hwf (by omega)
  rw [h1] at h
  rw [h]
  have hc0 : chainOff buf e.central_dir_offset 0 = e.central_dir_offset := rfl
  have hr1 : List.range 1 = [0] := rfl
  rw [hr1]
  simp only [List.map_cons, List.map_nil, hc0]
  unfold entryAt entryOfCDFH cdfhAt
  simp [hname, hnl, hm, hcs, hus]

/-- Witness for C7: the theorem applied to the concrete archive
`arch73`. -/
theorem zip_read_directory_single_entry_witness :
    zip_read_directory arch73 =
      .ok [{ file_name := some [97, 46, 116, 120, 116]
             compressed_size := 10
             uncompressed_size := 10
             compression_method := 0
             local_header_offset := readLE32 arch73 (e73.central_dir_offset + 42)
             crc32 := readLE32 arch73 (e73.central_dir_offset + 16)
             general_purpose_bit_flag := readLE16 arch73 (e73.central_dir_offset + 8) }] :=
  zip_read_directory_single_entry arch73 51 e73 (by decide) (by decide) (by decide)
    (by decide) (by decide) (by decide) (by decide)

theorem applyJunk_length (junk : Nat → Option (List Nat)) :
    ∀ (es : List ZipEntry) (i : Nat), (applyJunk junk i es).length = es.length := by
  intro es
  induction es with
  | nil => intro i; rfl
  | cons e rest ih =>
    intro i
    show (applyJunk junk (i + 1) rest).length + 1 = rest.length + 1
    rw [ih (i + 1)]

theorem applyJunk_get (junk : Nat → Option (List Nat)) :
    ∀ (es : List ZipEntry) (i k : Nat) (h1 : k < (applyJunk junk i es).length)
      (h2 : k < es.length),
      (applyJunk junk i es).get ⟨k, h1⟩ = patchEntry (junk (i + k)) (es.get ⟨k, h2⟩) := by
  intro es
  induction es with
  | nil =>
    intro i k h1 h2
    exact absurd h2 (by simp)
  | cons e rest ih =>
    intro i k h1 h2
    match k with
    | 0 => rfl
    | k + 1 =>
      have hl := applyJunk_length junk rest (i + 1)
      have hk2 : k < rest.length := by
        have hc : (e :: rest).length = rest.length + 1 := rfl
        omega
      have hk1 : k < (applyJunk junk (i + 1) rest).length := by omega
      have hstep : (applyJunk junk i (e :: rest)).get ⟨k + 1, h1⟩ =
          (applyJunk junk (i + 1) rest).get ⟨k, hk1⟩ := rfl
      have hstep2 : (e :: rest).get ⟨k + 1, h2⟩ = rest.get ⟨k, hk2⟩ := rfl
      rw [hstep, hstep2, ih (i + 1) k hk1 hk2]
      have harg : i + 1 + k = i + (k + 1) := by omega
      rw [harg]

theorem patchEntry_fields (j : Option (List Nat)) (e : ZipEntry) :
    (patchEntry j e).compressed_size = e.compressed_size ∧
    (patchEntry j e).uncompressed_size = e.uncompressed_size ∧
    (patchEntry j e).compression_method = e.compression_method ∧
    (patchEntry j e).crc32 = e.crc32 ∧
    (patchEntry j e).general_purpose_bit_flag = e.general_purpose_bit_flag ∧
    (patchEntry j e).local_header_offset = e.local_header_offset := by
  obtain ⟨fn, cs, us, cm, lho, crc, fl⟩ := e
  cases fn <;> simp [patchEntry]

theorem patchEntry_name (j : Option (List Nat)) (e : ZipEntry) (n : List Nat)
    (h : e.file_name = some n) : (patchEntry j e).file_name = some n := by
  unfold patchEntry
  rw [h]
  exact h

/-- Claim C8, amended: parsing the same immutable buffer twice is
deterministic in everything the program initializes — two invocations
(two executions, each observing its own indeterminate contents for the
uninitialized fields) yield the same failure, or entry collections of
equal length agreeing at every index on compressed and uncompressed
size, method, crc32, bit flag and local-header offset, and agreeing on
`file_name` at every index where pass 2 actually writes it
(`file_name_len > 0`).  The `file_name` of an entry whose CDFH
declares `file_name_len = 0` is uninitialized malloc memory and is not
guaranteed equal across invocations (see the counterexample). -/
theorem zip_read_directory_run_deterministic (buf : List Nat)
    (j1 j2 : Nat → Option (List Nat)) :
    (∀ e1 e2, zip_read_directory_run buf j1 = .err e1 →
      zip_read_directory_run buf j2 = .err e2 → e1 = e2) ∧
    (∀ es1 es2, zip_read_directory_run buf j1 = .ok es1 →
      zip_read_directory_run buf j2 = .ok es2 →
      es1.length = es2.length ∧
      ∀ i (hi1 : i < es1.length) (hi2 : i < es2.length),
        (es1.get ⟨i, hi1⟩).compressed_size = (es2.get ⟨i, hi2⟩).compressed_size ∧
        (es1.get ⟨i, hi1⟩).uncompressed_size = (es2.get ⟨i, hi2⟩).uncompressed_size ∧
        (es1.get ⟨i, hi1⟩).compression_method = (es2.get ⟨i, hi2⟩).compression_method ∧
        (es1.get ⟨i, hi1⟩).crc32 = (es2.get ⟨i, hi2⟩).crc32 ∧
        (es1.get ⟨i, hi1⟩).general_purpose_bit_flag =
          (es2.get ⟨i, hi2⟩).general_purpose_bit_flag ∧
        (es1.get ⟨i, hi1⟩).local_header_offset =
          (es2.get ⟨i, hi2⟩).local_header_offset ∧
        ∀ es (hi : i < es.length), zip_read_directory buf = .ok es →
          ∀ n, (es.get ⟨i, hi⟩).file_name = some n →
            (es1.get ⟨i, hi1⟩).file_name = some n ∧
            (es2.get ⟨i, hi2⟩).file_name = some n) := by
  constructor
  · intro e1 e2 q1 q2
    unfold zip_read_directory_run at q1 q2
    cases hp : zip_read_directory buf with
    | err e =>
      rw [hp] at q1 q2
      dsimp only at q1 q2
      injection q1 with a1
      injection q2 with a2
      rw [← a1, ← a2]
    | ok es =>
      rw [hp] at q1
      dsimp only at q1
      exact ZipResult.noConfusion q1
  · intro es1 es2 q1 q2
    unfold zip_read_directory_run at q1 q2
    cases hp : zip_read_directory buf with
    | err e =>
      rw [hp] at q1
      dsimp only at q1
      exact ZipResult.noConfusion q1
    | ok es =>
      rw [hp] at q1 q2
      dsimp only at q1 q2
      injection q1 with a1
      injection q2 with a2
      subst a1
      subst a2
      refine ⟨by rw [applyJunk_length, applyJunk_length], ?_⟩
      intro i hi1 hi2
      have hie : i < es.length := by
        have := applyJunk_length j1 es 0
        omega
      have g1 := applyJunk_get j1 es 0 i hi1 hie
      have g2 := applyJunk_get j2 es 0 i hi2 hie
      rw [g1, g2]
      obtain ⟨f1, f2, f3, f4, f5, f6⟩ := patchEntry_fields (j1 (0 + i)) (es.get ⟨i, hie⟩)
      obtain ⟨d1, d2, d3, d4, d5, d6⟩ := patchEntry_fields (j2 (0 + i)) (es.get ⟨i, hie⟩)
      refine ⟨by rw [f1, d1], by rw [f2, d2], by rw [f3, d3], by rw [f4, d4],
        by rw [f5, d5], by rw [f6, d6], ?_⟩
      intro es2 hi2e hes n hn
      injection hes with hee
      subst hee
      exact ⟨patchEntry_name _ _ n hn, patchEntry_name _ _ n hn⟩

/-- Witness for C8: the amended theorem applied to two executions of
the parse on `arch73` (every name initialized there), with different
indeterminate contents, still yields equal collections. -/
theorem zip_read_directory_run_deterministic_witness :
    List.length [demoEntry] = List.length [demoEntry] :=
  ((zip_read_directory_run_deterministic arch73 (fun _ => none) (fun _ => some [1])).2
    [demoEntry] [demoEntry] (by decide) (by decide)).1

/-- Counterexample to C8 as stated: on `arch68` (one entry whose CDFH
declares `file_name_len = 0`) both invocations succeed, but the two
executions — observing different indeterminate contents in the
uninitialized `file_name` — return entry collections whose
`file_name` at index 0 differs, so the collections are not
field-for-field equal. -/
theorem zip_read_directory_two_runs_differ :
    zip_read_directory_run arch68 (fun _ => some [65]) =
      .ok [⟨some [65], 0, 0, 0, 0, 0, 0⟩] ∧
    zip_read_directory_run arch68 (fun _ => some [66]) =
      .ok [⟨some [66], 0, 0, 0, 0, 0, 0⟩] ∧
    (⟨some [65], 0, 0, 0, 0, 0, 0⟩ : ZipEntry).file_name ≠
      (⟨some [66], 0, 0, 0, 0, 0, 0⟩ : ZipEntry).file_name := by decide

/-- Claim C9: the claim says every returned ZipEntry has an
initialized, NUL-terminated `file_name`, including entries with
`file_name_len = 0`.  The code never assigns `entries[i].file_name`
when `file_name_len = 0` (pass 2 only writes the field inside
`if (cdfh.file_name_len > 0)`), so on `arch68` — one CDFH declaring an
empty name — the parse succeeds but the entry's name field stays
uninitialized (modeled `none`). -/
theorem zip_read_directory_empty_name_uninitialized :
    readLE16 arch68 28 = 0 ∧
    zip_read_directory arch68 = .ok [⟨none, 0, 0, 0, 0, 0, 0⟩] := by decide

/-- Claim C10: whenever `cdfh_pos + 46 <= size` — which pass 1 of the
walker checks before every call — `fast_cdfh_va_params_sum` skips its
error branch and returns exactly `file_name_len + extra_field_len +
file_comment_len` of the record at `cdfh_pos`; without that
precondition it returns the numeric code `ZIP_ERR_BAD_BUFFER = 6`,
which an in-bounds record with length sum 6 also returns, so the error
value is indistinguishable from a valid sum. -/
theorem fast_cdfh_va_params_sum_spec :
    (∀ (buf : List Nat) (p : Nat), p + 46 ≤ buf.length →
      fast_cdfh_va_params_sum buf p =
        readLE16 buf (p + 28) + readLE16 buf (p + 30) + readLE16 buf (p + 32)) ∧
    (∀ (buf : List Nat) (p : Nat), buf.length < p + 46 →
      fast_cdfh_va_params_sum buf p = ZIP_ERR_BAD_BUFFER) ∧
    (∃ (buf : List Nat) (p : Nat), p + 46 ≤ buf.length ∧
      fast_cdfh_va_params_sum buf p = ZIP_ERR_BAD_BUFFER) := by
  refine ⟨?_, ?_, ⟨bufC10, 0, by decide, by decide⟩⟩
  · intro buf p h
    unfold fast_cdfh_va_params_sum
    rw [if_neg (by omega)]
  · intro buf p h
    unfold fast_cdfh_va_params_sum
    rw [if_pos h]

/-- Witness for C10: the no-error case applied to the concrete
in-bounds record `bufC10` at offset 0. -/
theorem fast_cdfh_va_params_sum_spec_witness :
    fast_cdfh_va_params_sum bufC10 0 =
      readLE16 bufC10 28 + readLE16 bufC10 30 + readLE16 bufC10 32 :=
  fast_cdfh_va_params_sum_spec.1 bufC10 0 (by decide)

end Zippeek
